import Mathlib

/-!
# Auction expiration lifecycle: a shallow embedding of `create_auction.go`

The Go package `auction` persists auction records in a document collection and
runs a background monitor that closes the auctions whose lifetime has elapsed.

Conventions of the embedding:

* `time.Duration` is an `int64` count of nanoseconds: an `Int`, with the
  wrap-around of `int64` arithmetic written out where the code negates it;
* `time.Time` is the instant as a count of nanoseconds since the Unix epoch;
* the collection is passed explicitly: an operation takes the collection and
  the outcome the store reports for the command, and returns the new
  collection together with the calls made to the logger.
-/

namespace Auction

deriving instance DecidableEq for Except

/-! ## Durations and instants (Go package `time`) -/

/-- A `time.Duration`: a signed 64-bit count of nanoseconds. -/
abbrev Duration := Int

/-- An instant (`time.Time`, wall clock) as nanoseconds since the Unix epoch. -/
abbrev Time := Int

def Nanosecond : Duration := 1
def Microsecond : Duration := 1000 * Nanosecond
def Millisecond : Duration := 1000 * Microsecond
def Second : Duration := 1000 * Millisecond
def Minute : Duration := 60 * Second
def Hour : Duration := 60 * Minute

def minInt64 : Int := -9223372036854775808
def maxInt64 : Int := 9223372036854775807

/-- The values an `int64` can hold. -/
def IsInt64 (x : Int) : Prop := minInt64 ≤ x ∧ x ≤ maxInt64

instance (x : Int) : Decidable (IsInt64 x) := by unfold IsInt64; infer_instance

/-- Reduction of an integer to the `int64` it wraps around to. -/
def wrapInt64 (x : Int) : Int :=
  (x + 9223372036854775808) % 18446744073709551616 - 9223372036854775808

/-- Go unary minus on an `int64` (`-ar.auctionInterval`): wraps around. -/
def negDuration (d : Duration) : Duration := wrapInt64 (-d)

/-- The method `Time.Add`: Go keeps an instant as whole seconds plus a
nanosecond part in `[0, 1e9)`, so adding a duration is exact. -/
def Time.Add (t : Time) (d : Duration) : Time := t + d

/-- The method `Time.Unix`: whole seconds since the epoch. The nanosecond part is
never negative, so this is the floor (`/` on `Int` floors for a positive
divisor). -/
def Time.Unix (t : Time) : Int := t / 1000000000

/-! ## Data model -/

/-- Modelled from the spec: `auction_entity.ProductCondition`, declared outside
this package; the spec lists the members New and Used. -/
inductive ProductCondition where
  | New
  | Used
  deriving DecidableEq, Repr

/-- Modelled from the spec: `auction_entity.AuctionStatus`, declared outside this
package; the spec lists the members Active and Completed. -/
inductive AuctionStatus where
  | Active
  | Completed
  deriving DecidableEq, Repr

/-- Modelled from the spec: the domain entity `auction_entity.Auction`, declared
outside this package, with the fields `CreateAuction` reads. -/
structure AuctionEntity where
  Id : String
  ProductName : String
  Category : String
  Description : String
  Condition : ProductCondition
  Status : AuctionStatus
  Timestamp : Time
  deriving DecidableEq, Repr

/-- The persisted record `AuctionEntityMongo`; `Timestamp` is an `int64` of
epoch seconds, `Id` is the document key `_id`. -/
structure AuctionEntityMongo where
  Id : String
  ProductName : String
  Category : String
  Description : String
  Condition : ProductCondition
  Status : AuctionStatus
  Timestamp : Int
  deriving DecidableEq, Repr

/-- The documents of the collection `auctions`. -/
abbrev Collection := List AuctionEntityMongo

/-- The struct `AuctionRepository`; the collection handle and the cancel function
are passed explicitly in the embedding. -/
structure AuctionRepository where
  auctionInterval : Duration
  deriving DecidableEq, Repr

/-- Modelled from the spec: `internal_error.InternalError`, declared outside this
package; it carries the caller-safe message. -/
structure InternalError where
  Message : String
  deriving DecidableEq, Repr

/-- Modelled from the spec: `internal_error.NewInternalServerError`. -/
def NewInternalServerError (message : String) : InternalError := ⟨message⟩

/-- A call to the package `logger`: `logger.Info(message)` or
`logger.Error(message, err)`. -/
inductive LogCall where
  | Info (message : String)
  | Error (message : String) (err : String)
  deriving DecidableEq, Repr

/-! ## The document store (driver calls) -/

/-- The filter document `{"status": s, "timestamp": {"$lte": t}}`. -/
structure Filter where
  status : AuctionStatus
  timestampLte : Int
  deriving DecidableEq, Repr

/-- The update document `{"$set": {"status": s}}`. -/
structure Update where
  setStatus : AuctionStatus
  deriving DecidableEq, Repr

/-- The part of `mongo.UpdateResult` the package reads. -/
structure UpdateResult where
  MatchedCount : Nat
  ModifiedCount : Nat
  deriving DecidableEq, Repr

/-- Whether a document satisfies the filter. -/
def Filter.matchesDoc (f : Filter) (r : AuctionEntityMongo) : Bool :=
  decide (r.Status = f.status) && decide (r.Timestamp ≤ f.timestampLte)

/-- The update applied to one document. -/
def Update.applyDoc (u : Update) (r : AuctionEntityMongo) : AuctionEntityMongo :=
  { r with Status := u.setStatus }

/-- Modelled from the spec: the store capability
`updateMany(filter, update) -> matchedCount|error`, one atomic bulk update. The
argument `fault` is the outcome the store reports: `some e` when the command
fails with `e`, which leaves the collection as it was. -/
def UpdateMany (fault : Option String) (coll : Collection) (f : Filter) (u : Update) :
    Except String (Collection × UpdateResult) :=
  match fault with
  | some e => .error e
  | none =>
    .ok (coll.map (fun r => if f.matchesDoc r then u.applyDoc r else r),
         { MatchedCount := coll.countP f.matchesDoc,
           ModifiedCount := coll.countP (fun r => f.matchesDoc r && decide (u.applyDoc r ≠ r)) })

/-- Modelled from the spec: the store capability `insertOne(record) -> ok|error`.
The insert is rejected when the store reports a fault, or when a document with
the same `_id` is already there (duplicate key); a rejected insert leaves the
collection as it was. -/
def InsertOne (fault : Option String) (coll : Collection) (doc : AuctionEntityMongo) :
    Except String Collection :=
  match fault with
  | some e => .error e
  | none =>
    if coll.any (fun r => decide (r.Id = doc.Id)) then .error "E11000 duplicate key error"
    else .ok (coll ++ [doc])

/-! ## The repository operations -/

/-- The method `closeExpiredAuctions`, run at the instant `now` (`time.Now()`):
returns the collection after the call and the calls made to the logger. -/
def closeExpiredAuctions (ar : AuctionRepository) (now : Time) (fault : Option String)
    (coll : Collection) : Collection × List LogCall :=
  let expirationThreshold := (Time.Add now (negDuration ar.auctionInterval)).Unix
  let filter : Filter :=
    { status := AuctionStatus.Active, timestampLte := expirationThreshold }
  let update : Update := { setStatus := AuctionStatus.Completed }
  match UpdateMany fault coll filter update with
  | .error err => (coll, [LogCall.Error "Error trying to close expired auctions" err])
  | .ok (coll', result) =>
    if result.ModifiedCount > 0 then
      (coll', [LogCall.Info
        ("Closed " ++ toString result.ModifiedCount ++ " expired auction(s)")])
    else (coll', [])

/-- The method `CreateAuction`: returns the error handed to the caller (`none`
for Go `nil`), the collection after the call and the calls made to the logger. -/
def CreateAuction (fault : Option String) (coll : Collection) (auctionEntity : AuctionEntity) :
    Option InternalError × Collection × List LogCall :=
  let auctionEntityMongo : AuctionEntityMongo :=
    { Id := auctionEntity.Id
      ProductName := auctionEntity.ProductName
      Category := auctionEntity.Category
      Description := auctionEntity.Description
      Condition := auctionEntity.Condition
      Status := auctionEntity.Status
      Timestamp := auctionEntity.Timestamp.Unix }
  match InsertOne fault coll auctionEntityMongo with
  | .error err =>
    (some (NewInternalServerError "Error trying to insert auction"), coll,
      [LogCall.Error "Error trying to insert auction" err])
  | .ok coll' => (none, coll', [])

/-! ## Duration settings (`time.ParseDuration`, `os.Getenv`) -/

/-- Whether a character is an ASCII digit. -/
def isDigitChar (c : Char) : Bool := decide (48 ≤ c.toNat) && decide (c.toNat ≤ 57)

/-- The floor of the binary logarithm, by halving `n` at most `fuel` times; with
`fuel = n` the halving always reaches 1 first. -/
def log2Fuel : Nat → Nat → Nat
  | 0, _ => 0
  | fuel + 1, n => if n < 2 then 0 else log2Fuel fuel (n / 2) + 1

/-- The value of a correctly rounded positive quotient `p / q` at 53 bits of
precision, round half to even, as a fraction `(numerator, denominator)`: the
`float64` nearest to `p / q` (all values met here are normal and finite). -/
def roundFloat64 (p q : Nat) : Nat × Nat :=
  if p = 0 ∨ q = 0 then (0, 1) else
  let scaled : Int → Nat × Nat := fun e =>
    if 0 ≤ e then (p, q * 2 ^ e.toNat) else (p * 2 ^ (-e).toNat, q)
  let e0 : Int := (log2Fuel p p : Int) - (log2Fuel q q : Int) - 52
  let e : Int := if 2 ^ 52 * (scaled e0).2 ≤ (scaled e0).1 then e0 else e0 - 1
  let n := (scaled e).1
  let d := (scaled e).2
  let m0 := n / d
  let r := n % d
  let m := if 2 * r < d then m0 else if d < 2 * r then m0 + 1
    else if m0 % 2 = 0 then m0 else m0 + 1
  if 0 ≤ e then (m * 2 ^ e.toNat, 1) else (m, 2 ^ (-e).toNat)

/-- The Go expression `uint64(float64(f) * (float64(unit) / scale))` of
`ParseDuration`, for `unit` and `scale` that a `float64` holds exactly. -/
def fractionNanos (f unit scale : Nat) : Nat :=
  let a := roundFloat64 f 1
  let b := roundFloat64 unit scale
  let c := roundFloat64 (a.1 * b.1) (a.2 * b.2)
  c.1 / c.2

/-- The function `leadingInt` of package `time`: consumes `[0-9]*`; `none` is the
overflow error. The accumulator `x` starts at 0. -/
def leadingInt (x : Nat) : List Char → Option (Nat × List Char)
  | [] => some (x, [])
  | c :: cs =>
    if !isDigitChar c then some (x, c :: cs)
    else if x > 2 ^ 63 / 10 then none
    else
      let x1 := x * 10 + (c.toNat - 48)
      if x1 > 2 ^ 63 then none else leadingInt x1 cs

/-- The function `leadingFraction` of package `time`: consumes `[0-9]*` and
returns the digits read as an integer, the scale `10 ^ digits` and the rest;
digits after an overflow are skipped. -/
def leadingFraction (x scale : Nat) (overflow : Bool) : List Char → Nat × Nat × List Char
  | [] => (x, scale, [])
  | c :: cs =>
    if !isDigitChar c then (x, scale, c :: cs)
    else if overflow then leadingFraction x scale true cs
    else if x > (2 ^ 63 - 1) / 10 then leadingFraction x scale true cs
    else
      let y := x * 10 + (c.toNat - 48)
      if y > 2 ^ 63 then leadingFraction x scale true cs
      else leadingFraction y (scale * 10) false cs

/-- The table `unitMap` of package `time`. -/
def unitMap (u : String) : Option Nat :=
  if u = "ns" then some 1
  else if u = "us" then some 1000
  else if u = "µs" then some 1000
  else if u = "μs" then some 1000
  else if u = "ms" then some 1000000
  else if u = "s" then some 1000000000
  else if u = "m" then some 60000000000
  else if u = "h" then some 3600000000000
  else none

/-- The errors of `time.ParseDuration`. -/
inductive ParseError where
  | invalidDuration
  | missingUnit
  | unknownUnit (u : String)
  deriving DecidableEq, Repr

/-- The step `Consume (\.[0-9]*)?` of `time.ParseDuration`: the fraction digits
as an integer, their scale, the rest of the string, and whether a digit was
consumed after the period (`post`). -/
def fractionPart : List Char → Nat × Nat × List Char × Bool
  | '.' :: s2 =>
    let r := leadingFraction 0 1 false s2
    (r.1, r.2.1, r.2.2, decide (s2.length ≠ r.2.2.length))
  | s1 => (0, 1, s1, false)

/-- The loop `for s != ""` of `time.ParseDuration` over the rest of the string,
with `d` the `uint64` sum so far. Every round consumes at least the unit, so
`fuel` at least the length of the string is never used up; `none` stands for
a loop cut short by `fuel`. -/
def parseDurationLoop : Nat → Nat → List Char → Option (Except ParseError Nat)
  | _, d, [] => some (.ok d)
  | 0, _, _ :: _ => none
  | fuel + 1, d, c :: cs =>
    if !(c = '.' || isDigitChar c) then some (.error .invalidDuration) else
    match leadingInt 0 (c :: cs) with
    | none => some (.error .invalidDuration)
    | some (v, s1) =>
      let pre := decide ((c :: cs).length ≠ s1.length)
      let fr := fractionPart s1
      let f := fr.1
      let scale := fr.2.1
      let s3 := fr.2.2.1
      let post := fr.2.2.2
      if !pre && !post then some (.error .invalidDuration) else
      let u := s3.takeWhile (fun x => !(x = '.' || isDigitChar x))
      let s4 := s3.dropWhile (fun x => !(x = '.' || isDigitChar x))
      if u.length = 0 then some (.error .missingUnit) else
      match unitMap (String.mk u) with
      | none => some (.error (.unknownUnit (String.mk u)))
      | some unit =>
        if v > 2 ^ 63 / unit then some (.error .invalidDuration) else
        let v1 := v * unit
        let v2 := if f > 0 then v1 + fractionNanos f unit scale else v1
        if f > 0 ∧ v2 > 2 ^ 63 then some (.error .invalidDuration) else
        let d1 := (d + v2) % 2 ^ 64
        if d1 > 2 ^ 63 then some (.error .invalidDuration) else
        parseDurationLoop fuel d1 s4

/-- The function `time.ParseDuration`, on the characters of the string (Go scans
bytes; it only tests them against ASCII characters, so the two agree). -/
def ParseDuration (str : String) : Except ParseError Duration :=
  let s0 := str.toList
  let neg := match s0 with
    | c :: _ => decide (c = '-')
    | [] => false
  let s := match s0 with
    | c :: cs => if c = '-' ∨ c = '+' then cs else c :: cs
    | [] => []
  if s = ['0'] then .ok 0
  else if s = [] then .error .invalidDuration
  else
    match parseDurationLoop s.length 0 s with
    | none => .error .invalidDuration
    | some (.error e) => .error e
    | some (.ok d) =>
      if neg then .ok (negDuration (wrapInt64 d))
      else if d > 2 ^ 63 - 1 then .error .invalidDuration
      else .ok d

/-- The process environment: the value of each variable that is set. -/
abbrev Env := String → Option String

/-- The function `os.Getenv`: the value of the variable, empty when it is unset. -/
def Getenv (env : Env) (key : String) : String := (env key).getD ""

/-- The function `getAuctionInterval`. -/
def getAuctionInterval (env : Env) : Duration :=
  let auctionInterval := Getenv env "AUCTION_INTERVAL"
  match ParseDuration auctionInterval with
  | .error _ => Minute * 5
  | .ok duration => duration

/-- The function `getAuctionCloseCheckInterval`. -/
def getAuctionCloseCheckInterval (env : Env) : Duration :=
  let checkInterval := Getenv env "AUCTION_CLOSE_CHECK_INTERVAL"
  match ParseDuration checkInterval with
  | .error _ => Second * 10
  | .ok duration => duration

/-! ## The expiration monitor -/

/-- The function `time.NewTicker`: it panics on a non-positive interval. -/
def NewTicker (d : Duration) : Except String Unit :=
  if d ≤ 0 then .error "non-positive interval for NewTicker" else .ok ()

/-- What one round of the `select` of the monitor receives: the cancellation of
the context (`ctx.Done()`), or a tick of the ticker. A tick carries the instant
the sweep reads from the clock and the outcome the store reports for the bulk
update of that sweep. -/
inductive MonitorEvent where
  | Done
  | Tick (now : Time) (fault : Option String)
  deriving DecidableEq, Repr

/-- The two states of the monitor. -/
inductive MonitorState where
  | Running
  | Stopped
  deriving DecidableEq, Repr

/-- The monitor after a sequence of events: its state, the collection, the calls
made to the logger and the number of calls made to `closeExpiredAuctions`. -/
structure MonitorRun where
  state : MonitorState
  coll : Collection
  log : List LogCall
  sweeps : Nat
  deriving DecidableEq, Repr

/-- The loop `for { select { ... } }` of `monitorAuctionExpiration` over the
events it receives: `Done` logs and returns, a tick calls
`closeExpiredAuctions` and loops. When the events are used up the loop is
still waiting in `select`. -/
def monitorLoop (ar : AuctionRepository) : List MonitorEvent → MonitorRun → MonitorRun
  | [], run => run
  | MonitorEvent.Done :: _, run =>
    { run with
      state := MonitorState.Stopped
      log := run.log ++ [LogCall.Info "Auction expiration monitor stopped"] }
  | MonitorEvent.Tick now fault :: rest, run =>
    let r := closeExpiredAuctions ar now fault run.coll
    monitorLoop ar rest { run with coll := r.1, log := run.log ++ r.2, sweeps := run.sweeps + 1 }

/-- The method `monitorAuctionExpiration`: creates the ticker, then loops.
`Except.error` is a panic of the goroutine. -/
def monitorAuctionExpiration (ar : AuctionRepository) (checkInterval : Duration)
    (events : List MonitorEvent) (coll : Collection) : Except String MonitorRun :=
  match NewTicker checkInterval with
  | .error p => .error p
  | .ok _ => .ok (monitorLoop ar events ⟨MonitorState.Running, coll, [], 0⟩)

/-- The function `NewAuctionRepository`: the repository it returns, and the
interval it hands to the goroutine `monitorAuctionExpiration` it starts. -/
def NewAuctionRepository (env : Env) : AuctionRepository × Duration :=
  let auctionInterval := getAuctionInterval env
  let checkInterval := getAuctionCloseCheckInterval env
  let ar : AuctionRepository := { auctionInterval := auctionInterval }
  (ar, checkInterval)

/-- Whether an event is a tick. -/
def MonitorEvent.isTick : MonitorEvent → Bool
  | MonitorEvent.Tick _ _ => true
  | MonitorEvent.Done => false

/-- One completed `select` of the monitor loop, by the channels that were ready
when it chose. `ctx.Done()` is ready from the moment the cancellation is issued
(the channel is closed and stays so); `ticker.C` is ready when a tick is
pending. With both ready Go picks one case at random, neither has priority:
`pickTick` is that pick. A tick carries the instant the sweep reads from the
clock and the outcome the store reports for its bulk update. -/
inductive SelectRound where
  | TickReady (now : Time) (fault : Option String)
  | DoneReady
  | BothReady (pickTick : Bool) (now : Time) (fault : Option String)
  deriving DecidableEq, Repr

/-- The case the `select` takes in a round. -/
def SelectRound.outcome : SelectRound → MonitorEvent
  | SelectRound.TickReady now fault => MonitorEvent.Tick now fault
  | SelectRound.DoneReady => MonitorEvent.Done
  | SelectRound.BothReady true now fault => MonitorEvent.Tick now fault
  | SelectRound.BothReady false _ _ => MonitorEvent.Done

/-- Whether the cancellation has been issued when the round chooses. -/
def SelectRound.cancelled : SelectRound → Bool
  | SelectRound.TickReady _ _ => false
  | SelectRound.DoneReady => true
  | SelectRound.BothReady _ _ _ => true

/-- Whether both channels were ready in the round. -/
def SelectRound.isRace : SelectRound → Bool
  | SelectRound.BothReady _ _ _ => true
  | _ => false

/-- A sequence of rounds in which a cancellation, once issued, stays issued. -/
def cancelStays : List SelectRound → Bool
  | [] => true
  | r :: rest => (!r.cancelled || rest.all SelectRound.cancelled) && cancelStays rest

/-! ## Specification-side definitions -/

/-- The ticks received before the first cancellation received. -/
def ticksBeforeDone : List MonitorEvent → List (Time × Option String)
  | [] => []
  | MonitorEvent.Done :: _ => []
  | MonitorEvent.Tick now fault :: rest => (now, fault) :: ticksBeforeDone rest

/-- The sweeps the specification asks of the monitor: one call of
`closeExpiredAuctions` for each tick, one after the other, each on the
collection the one before left; the result is the last collection and the
logger calls of all the sweeps in order. -/
def sweepAll (ar : AuctionRepository) :
    List (Time × Option String) → Collection → Collection × List LogCall
  | [], coll => (coll, [])
  | (now, fault) :: rest, coll =>
    let r := closeExpiredAuctions ar now fault coll
    let s := sweepAll ar rest r.1
    (s.1, r.2 ++ s.2)

/-- The entry the monitor logs when it takes the cancellation. -/
def stopEntry : LogCall := LogCall.Info "Auction expiration monitor stopped"

/-- The record an accepted `CreateAuction` stores for an entity. -/
def storedRecord (e : AuctionEntity) : AuctionEntityMongo :=
  { Id := e.Id
    ProductName := e.ProductName
    Category := e.Category
    Description := e.Description
    Condition := e.Condition
    Status := e.Status
    Timestamp := e.Timestamp.Unix }

/-- The sweep as the specification words it: a record is closed when it is
Active and its stored timestamp, in whole epoch seconds, is at most
`now - lifetime`, compared exactly, in nanoseconds. -/
def closeExact (lifetime : Duration) (now : Time) (r : AuctionEntityMongo) :
    AuctionEntityMongo :=
  if r.Status = AuctionStatus.Active ∧ r.Timestamp * 1000000000 ≤ now - lifetime then
    { r with Status := AuctionStatus.Completed }
  else r

/-- An environment with one variable set. -/
def envWith (key value : String) : Env := fun k => if k = key then some value else none

/-- An environment with no variable set. -/
def emptyEnv : Env := fun _ => none

/-- The sweep function on one record, as `UpdateMany` applies it. -/
def sweepRecord (ar : AuctionRepository) (now : Time) (r : AuctionEntityMongo) :
    AuctionEntityMongo :=
  if r.Status = AuctionStatus.Active ∧
      r.Timestamp ≤ (Time.Add now (negDuration ar.auctionInterval)).Unix then
    { r with Status := AuctionStatus.Completed }
  else r

/-- The stored record of an entity with its status set to Completed. -/
def completedRecord (e : AuctionEntity) : AuctionEntityMongo :=
  { storedRecord e with Status := AuctionStatus.Completed }

/-! ## Sample data -/

/-- A record that is Active with stored timestamp 0. -/
def activeAtZero : AuctionEntityMongo :=
  { Id := "a1", ProductName := "lamp", Category := "home", Description := "desk lamp",
    Condition := ProductCondition.New, Status := AuctionStatus.Active, Timestamp := 0 }

/-- An entity created 0.9 s after the epoch, Active. -/
def lateInSecond : AuctionEntity :=
  { Id := "a2", ProductName := "chair", Category := "home", Description := "oak chair",
    Condition := ProductCondition.Used, Status := AuctionStatus.Active,
    Timestamp := 900000000 }

/-- Rounds of a monitor: a tick at 5 s, a tick at 6 s whose sweep fails, the
cancellation issued with a tick pending at 7 s and the `select` taking the
tick, then the `select` taking the cancellation; a last round that is never
reached. -/
def racingRounds : List SelectRound :=
  [SelectRound.TickReady 5000000000 none,
    SelectRound.TickReady 6000000000 (some "timeout"),
    SelectRound.BothReady true 7000000000 (some "context canceled"),
    SelectRound.DoneReady,
    SelectRound.BothReady true 8000000000 none]

/-- An entity created at the epoch, Active. -/
def createdAtZero : AuctionEntity :=
  { Id := "a3", ProductName := "vase", Category := "home", Description := "glass vase",
    Condition := ProductCondition.New, Status := AuctionStatus.Active, Timestamp := 0 }

/-! ## Lemmas: the duration parser -/

theorem leadingInt_length : ∀ (s : List Char) (x v : Nat) (s1 : List Char),
    leadingInt x s = some (v, s1) → s1.length ≤ s.length := by
  intro s
  induction s with
  | nil =>
    intro x v s1 h
    simp only [leadingInt, Option.some.injEq, Prod.mk.injEq] at h
    rw [← h.2]
  | cons c cs ih =>
    intro x v s1 h
    simp only [leadingInt] at h
    split_ifs at h
    · simp only [Option.some.injEq, Prod.mk.injEq] at h
      rw [← h.2]
    · have := ih _ _ _ h
      simp only [List.length_cons]
      omega

theorem leadingFraction_length : ∀ (s : List Char) (x scale : Nat) (overflow : Bool),
    (leadingFraction x scale overflow s).2.2.length ≤ s.length := by
  intro s
  induction s with
  | nil => intro x scale overflow; simp [leadingFraction]
  | cons c cs ih =>
    intro x scale overflow
    simp only [leadingFraction]
    split_ifs
    · simp
    all_goals
      simp only [List.length_cons]
      exact Nat.le_succ_of_le (ih _ _ _)

theorem fractionPart_length (s1 : List Char) :
    (fractionPart s1).2.2.1.length ≤ s1.length := by
  unfold fractionPart
  split
  · simp only [List.length_cons]
    exact Nat.le_succ_of_le (leadingFraction_length _ _ _ _)
  · exact Nat.le_refl _

theorem dropWhile_length_lt (p : Char → Bool) (l : List Char)
    (h : (l.takeWhile p).length ≠ 0) : (l.dropWhile p).length < l.length := by
  have h1 := congrArg List.length (List.takeWhile_append_dropWhile p l)
  rw [List.length_append] at h1
  omega

theorem parseDurationLoop_fuel : ∀ (fuel d : Nat) (s : List Char),
    s.length ≤ fuel → parseDurationLoop fuel d s ≠ none := by
  intro fuel
  induction fuel with
  | zero =>
    intro d s hs
    cases s with
    | nil => simp [parseDurationLoop]
    | cons c cs => simp at hs
  | succ fuel ih =>
    intro d s hs
    cases s with
    | nil => simp [parseDurationLoop]
    | cons c cs =>
      simp only [parseDurationLoop]
      split
      · simp
      · split
        · simp
        · rename_i v s1 hli
          have h1 := leadingInt_length _ _ _ _ hli
          have h2 := fractionPart_length s1
          generalize fractionPart s1 = fr at h2 ⊢
          have hfin : ∀ d1, parseDurationLoop fuel d1
              (List.dropWhile (fun x => !(decide (x = '.') || isDigitChar x)) fr.2.2.1) ≠ none ∨
              (List.takeWhile (fun x => !(decide (x = '.') || isDigitChar x)) fr.2.2.1).length
                = 0 := by
            intro d1
            by_cases hb : (List.takeWhile
                (fun x => !(decide (x = '.') || isDigitChar x)) fr.2.2.1).length = 0
            · exact Or.inr hb
            · left
              apply ih
              have h3 := dropWhile_length_lt _ _ hb
              simp only [List.length_cons] at hs h1
              omega
          split
          · simp
          · split
            · simp
            · rename_i hb
              have hk := fun d1 => (hfin d1).resolve_right hb
              split
              · simp
              · split_ifs <;> first | exact hk _ | simp

theorem ParseDuration_loop_runs (s : List Char) : parseDurationLoop s.length 0 s ≠ none :=
  parseDurationLoop_fuel s.length 0 s (Nat.le_refl _)

theorem parseDurationLoop_le : ∀ (fuel d : Nat) (s : List Char) (r : Nat),
    parseDurationLoop fuel d s = some (.ok r) → d ≤ 2 ^ 63 → r ≤ 2 ^ 63 := by
  intro fuel
  induction fuel with
  | zero =>
    intro d s r h hd
    cases s with
    | nil =>
      simp only [parseDurationLoop, Option.some.injEq, Except.ok.injEq] at h
      omega
    | cons c cs => simp [parseDurationLoop] at h
  | succ fuel ih =>
    intro d s r h hd
    cases s with
    | nil =>
      simp only [parseDurationLoop, Option.some.injEq, Except.ok.injEq] at h
      omega
    | cons c cs =>
      simp only [parseDurationLoop] at h
      generalize fractionPart _ = fr at h
      split at h
      · simp at h
      · split at h
        · simp at h
        · split at h
          · simp at h
          · split at h
            · simp at h
            · split at h
              · simp at h
              · split_ifs at h <;>
                  first
                  | exact ih _ _ _ h (not_lt.mp (by assumption))
                  | simp at h

theorem ParseDuration_isInt64 (str : String) (d : Duration) (h : ParseDuration str = .ok d) :
    IsInt64 d := by
  unfold ParseDuration at h
  simp only at h
  generalize (match str.toList with
    | c :: cs => if c = '-' ∨ c = '+' then cs else c :: cs
    | [] => []) = s at h
  generalize (match str.toList with
    | c :: _ => decide (c = '-')
    | [] => false) = neg at h
  by_cases h0 : s = ['0']
  · rw [if_pos h0] at h
    simp only [Except.ok.injEq] at h
    rw [← h]
    decide
  · rw [if_neg h0] at h
    by_cases h1 : s = []
    · rw [if_pos h1] at h
      simp at h
    · rw [if_neg h1] at h
      cases hl : parseDurationLoop s.length 0 s with
      | none => rw [hl] at h; simp at h
      | some res =>
        rw [hl] at h
        cases res with
        | error e => simp at h
        | ok r =>
          have hle := parseDurationLoop_le _ _ _ _ hl (by norm_num)
          simp only at h
          norm_num at hle
          cases neg with
          | true =>
            simp only [if_true, Except.ok.injEq] at h
            rw [← h]
            unfold IsInt64 negDuration wrapInt64 minInt64 maxInt64
            constructor <;> omega
          | false =>
            simp only [Bool.false_eq_true, if_false] at h
            split_ifs at h with hbig
            simp only [Except.ok.injEq] at h
            rw [← h]
            unfold IsInt64 minInt64 maxInt64
            norm_num at hbig
            constructor <;> omega

theorem getAuctionInterval_isInt64 (env : Env) : IsInt64 (getAuctionInterval env) := by
  unfold getAuctionInterval
  simp only
  cases h : ParseDuration (Getenv env "AUCTION_INTERVAL") with
  | error e =>
    show IsInt64 (Minute * 5)
    decide
  | ok d => exact ParseDuration_isInt64 _ d h

/-! ## Lemmas: instants, the sweep, the monitor -/

theorem le_unix_iff (ts x : Int) : ts ≤ Time.Unix x ↔ ts * 1000000000 ≤ x := by
  unfold Time.Unix
  omega

theorem negDuration_eq_neg (d : Int) (hmin : minInt64 < d) (hmax : d ≤ maxInt64) :
    negDuration d = -d := by
  unfold negDuration wrapInt64
  unfold minInt64 at hmin
  unfold maxInt64 at hmax
  show @Eq Int _ _
  omega

theorem negDuration_minInt64 : negDuration minInt64 = minInt64 := by decide

theorem closeExpiredAuctions_ok_coll (ar : AuctionRepository) (now : Time) (coll : Collection) :
    (closeExpiredAuctions ar now none coll).1 =
      coll.map (fun r =>
        if r.Status = AuctionStatus.Active ∧
            r.Timestamp ≤ (Time.Add now (negDuration ar.auctionInterval)).Unix then
          { r with Status := AuctionStatus.Completed }
        else r) := by
  have h : ∀ r : AuctionEntityMongo,
      (if (Filter.matchesDoc ⟨AuctionStatus.Active,
            (Time.Add now (negDuration ar.auctionInterval)).Unix⟩ r) = true
        then Update.applyDoc ⟨AuctionStatus.Completed⟩ r else r) =
      (if r.Status = AuctionStatus.Active ∧
            r.Timestamp ≤ (Time.Add now (negDuration ar.auctionInterval)).Unix then
          { r with Status := AuctionStatus.Completed }
        else r) := by
    intro r
    simp [Filter.matchesDoc, Update.applyDoc]
  simp only [closeExpiredAuctions, UpdateMany]
  split_ifs <;> simp only [h]

theorem negDuration_le_neg (d : Int) (h : IsInt64 d) : negDuration d ≤ -d := by
  unfold negDuration wrapInt64
  unfold IsInt64 minInt64 maxInt64 at h
  show @LE.le Int _ _ _
  omega

theorem closeExpiredAuctions_ok_map (ar : AuctionRepository) (now : Time) (coll : Collection) :
    (closeExpiredAuctions ar now none coll).1 = coll.map (sweepRecord ar now) :=
  closeExpiredAuctions_ok_coll ar now coll

theorem closeExpiredAuctions_fault_coll (ar : AuctionRepository) (now : Time) (e : String)
    (coll : Collection) : (closeExpiredAuctions ar now (some e) coll).1 = coll := by
  simp [closeExpiredAuctions, UpdateMany]

theorem sweepRecord_id (ar : AuctionRepository) (now : Time) (r : AuctionEntityMongo) :
    (sweepRecord ar now r).Id = r.Id := by
  unfold sweepRecord
  split_ifs <;> rfl

theorem CreateAuction_accepted (coll0 : Collection) (e : AuctionEntity)
    (hins : (CreateAuction none coll0 e).1 = none) :
    (CreateAuction none coll0 e).2.1 = coll0 ++ [storedRecord e] ∧
      ∀ r ∈ coll0, r.Id ≠ e.Id := by
  by_cases hdup : (coll0.any (fun r => decide (r.Id = e.Id))) = true
  · simp [CreateAuction, InsertOne, hdup] at hins
  · refine ⟨by simp [CreateAuction, InsertOne, hdup, storedRecord], ?_⟩
    intro r hr hid
    apply hdup
    rw [List.any_eq_true]
    exact ⟨r, hr, by simpa using hid⟩

theorem unix_floor (x : Int) :
    Time.Unix x * 1000000000 ≤ x ∧ x < Time.Unix x * 1000000000 + 1000000000 := by
  unfold Time.Unix
  omega

theorem sweepRecord_completed (ar : AuctionRepository) (now : Time) (r : AuctionEntityMongo)
    (h : r.Status = AuctionStatus.Completed) : sweepRecord ar now r = r := by
  unfold sweepRecord
  simp [h]

theorem sweepRecord_cases (ar : AuctionRepository) (now : Time) (r : AuctionEntityMongo) :
    sweepRecord ar now r = r ∨
      (r.Status = AuctionStatus.Active ∧
        sweepRecord ar now r = { r with Status := AuctionStatus.Completed }) := by
  unfold sweepRecord
  split_ifs with h
  · exact Or.inr ⟨h.1, rfl⟩
  · exact Or.inl rfl

theorem closeExpiredAuctions_coll_cases (ar : AuctionRepository) (now : Time)
    (fault : Option String) (coll : Collection) :
    (closeExpiredAuctions ar now fault coll).1 = coll ∨
      (closeExpiredAuctions ar now fault coll).1 = coll.map (sweepRecord ar now) := by
  cases fault with
  | none => exact Or.inr (closeExpiredAuctions_ok_map ar now coll)
  | some e => exact Or.inl (closeExpiredAuctions_fault_coll ar now e coll)

theorem sweep_keeps_completed (ar : AuctionRepository) (now : Time) (fault : Option String)
    (coll : Collection) (r : AuctionEntityMongo) (hr : r.Status = AuctionStatus.Completed)
    (hmem : r ∈ coll) : r ∈ (closeExpiredAuctions ar now fault coll).1 := by
  rcases closeExpiredAuctions_coll_cases ar now fault coll with h | h
  · rw [h]; exact hmem
  · rw [h, List.mem_map]
    exact ⟨r, hmem, sweepRecord_completed ar now r hr⟩

theorem sweep_keeps_stored (ar : AuctionRepository) (now : Time) (fault : Option String)
    (coll : Collection) (e : AuctionEntity)
    (hmem : storedRecord e ∈ coll ∨ completedRecord e ∈ coll) :
    storedRecord e ∈ (closeExpiredAuctions ar now fault coll).1 ∨
      completedRecord e ∈ (closeExpiredAuctions ar now fault coll).1 := by
  rcases hmem with hmem | hmem
  · rcases closeExpiredAuctions_coll_cases ar now fault coll with h | h
    · rw [h]; exact Or.inl hmem
    · rw [h]
      rcases sweepRecord_cases ar now (storedRecord e) with hc | ⟨_, hc⟩
      · exact Or.inl (List.mem_map.mpr ⟨_, hmem, hc⟩)
      · exact Or.inr (List.mem_map.mpr ⟨_, hmem, hc⟩)
  · exact Or.inr (sweep_keeps_completed ar now fault coll _ rfl hmem)

theorem sweep_closes_elapsed (L : Duration) (now : Time) (coll : Collection)
    (e : AuctionEntity) (hmin : minInt64 < L) (hmax : L ≤ maxInt64)
    (hact : e.Status = AuctionStatus.Active) (hnow : e.Timestamp + L ≤ now)
    (hmem : storedRecord e ∈ coll ∨ completedRecord e ∈ coll) :
    completedRecord e ∈ (closeExpiredAuctions ⟨L⟩ now none coll).1 := by
  rcases hmem with hmem | hmem
  · rw [closeExpiredAuctions_ok_map, List.mem_map]
    refine ⟨storedRecord e, hmem, ?_⟩
    have hmatch : (storedRecord e).Timestamp ≤ (Time.Add now (negDuration L)).Unix := by
      rw [le_unix_iff, negDuration_eq_neg L hmin hmax]
      have hts : (storedRecord e).Timestamp = Time.Unix e.Timestamp := rfl
      have hfloor := unix_floor e.Timestamp
      rw [hts]
      unfold Time.Add
      dsimp only [Time, Duration] at *
      omega
    have hsr : (storedRecord e).Status = AuctionStatus.Active := hact
    unfold sweepRecord
    simp only [hsr, hmatch, and_self, if_true]
    rfl
  · exact sweep_keeps_completed ⟨L⟩ now none coll _ rfl hmem

theorem monitorLoop_keeps_completed (ar : AuctionRepository) (r : AuctionEntityMongo)
    (hr : r.Status = AuctionStatus.Completed) (events : List MonitorEvent) :
    ∀ run : MonitorRun, r ∈ run.coll → r ∈ (monitorLoop ar events run).coll := by
  induction events with
  | nil => intro run h; exact h
  | cons ev rest ih =>
    intro run h
    cases ev with
    | Done => exact h
    | Tick now fault =>
      simp only [monitorLoop]
      apply ih
      exact sweep_keeps_completed ar now fault run.coll r hr h

theorem sweepRecord_not_matched (ar : AuctionRepository) (now : Time)
    (r : AuctionEntityMongo) :
    Filter.matchesDoc ⟨AuctionStatus.Active, (Time.Add now (negDuration ar.auctionInterval)).Unix⟩
      (sweepRecord ar now r) = false := by
  unfold sweepRecord Filter.matchesDoc
  split_ifs with h
  · simp
  · simp only [Bool.and_eq_false_imp, decide_eq_true_eq, decide_eq_false_iff_not]
    intro hs ht
    exact h ⟨hs, ht⟩

theorem monitorLoop_sweeps (ar : AuctionRepository) (events : List MonitorEvent) :
    ∀ run : MonitorRun, (monitorLoop ar events run).sweeps =
      run.sweeps + (events.takeWhile MonitorEvent.isTick).length := by
  induction events with
  | nil => intro run; simp [monitorLoop]
  | cons ev rest ih =>
    intro run
    cases ev with
    | Done => simp [monitorLoop, MonitorEvent.isTick]
    | Tick now fault =>
      simp only [monitorLoop, ih, List.takeWhile, MonitorEvent.isTick, List.length_cons]
      omega

theorem monitorLoop_state (ar : AuctionRepository) (events : List MonitorEvent) :
    ∀ run : MonitorRun, (monitorLoop ar events run).state =
      if MonitorEvent.Done ∈ events then MonitorState.Stopped else run.state := by
  induction events with
  | nil => intro run; simp [monitorLoop]
  | cons ev rest ih =>
    intro run
    cases ev with
    | Done => simp [monitorLoop]
    | Tick now fault => simp [monitorLoop, ih]

theorem monitorLoop_done_cut (ar : AuctionRepository) (before after : List MonitorEvent) :
    ∀ run : MonitorRun, monitorLoop ar (before ++ MonitorEvent.Done :: after) run =
      monitorLoop ar (before ++ [MonitorEvent.Done]) run := by
  induction before with
  | nil => intro run; simp [monitorLoop]
  | cons ev rest ih =>
    intro run
    cases ev with
    | Done => simp [monitorLoop]
    | Tick now fault =>
      show monitorLoop ar (rest ++ MonitorEvent.Done :: after) _ =
        monitorLoop ar (rest ++ [MonitorEvent.Done]) _
      exact ih _

theorem monitorLoop_refines (ar : AuctionRepository) (events : List MonitorEvent) :
    ∀ run : MonitorRun,
      (monitorLoop ar events run).coll = (sweepAll ar (ticksBeforeDone events) run.coll).1 ∧
      (monitorLoop ar events run).log =
        run.log ++ (sweepAll ar (ticksBeforeDone events) run.coll).2 ++
          (if MonitorEvent.Done ∈ events then [stopEntry] else []) ∧
      (monitorLoop ar events run).sweeps = run.sweeps + (ticksBeforeDone events).length := by
  induction events with
  | nil => intro run; simp [monitorLoop, ticksBeforeDone, sweepAll]
  | cons ev rest ih =>
    intro run
    cases ev with
    | Done => simp [monitorLoop, ticksBeforeDone, sweepAll, stopEntry]
    | Tick now fault =>
      obtain ⟨h1, h2, h3⟩ := ih
        { run with
          coll := (closeExpiredAuctions ar now fault run.coll).1
          log := run.log ++ (closeExpiredAuctions ar now fault run.coll).2
          sweeps := run.sweeps + 1 }
      simp only [monitorLoop, ticksBeforeDone, sweepAll]
      refine ⟨h1, ?_, ?_⟩
      · rw [h2]
        simp [List.append_assoc]
      · rw [h3]
        simp only [List.length_cons]
        omega

theorem ticksBeforeDone_no_race (rounds : List SelectRound)
    (h : ∀ r ∈ rounds, r.isRace = false) :
    (ticksBeforeDone (rounds.map SelectRound.outcome)).length =
      (rounds.takeWhile (fun r => !r.cancelled)).length := by
  induction rounds with
  | nil => rfl
  | cons r rest ih =>
    have hrest : ∀ r ∈ rest, r.isRace = false := fun x hx => h x (List.mem_cons_of_mem _ hx)
    cases r with
    | TickReady now fault =>
      simp only [List.map_cons, SelectRound.outcome, ticksBeforeDone, List.length_cons,
        List.takeWhile, SelectRound.cancelled, Bool.not_false, ih hrest]
    | DoneReady =>
      simp [SelectRound.outcome, ticksBeforeDone, List.takeWhile, SelectRound.cancelled]
    | BothReady pick now fault =>
      have := h (SelectRound.BothReady pick now fault) (by simp)
      simp [SelectRound.isRace] at this

/-! ## Claims -/

/-- C1 (as amended): for every collection, sweep instant and lifetime `L` that is
an `int64` other than the least one, a successful `closeExpiredAuctions` yields
the collection in which exactly the records that were Active with stored
timestamp (whole epoch seconds) at most `now - L`, compared exactly, are set to
Completed, every other record and field unchanged; a record with timestamp equal
to `now - L` is closed and one a second later is not. -/
theorem closeExpiredAuctions_closes_exactly (ar : AuctionRepository) (now : Time)
    (coll : Collection) (hmin : minInt64 < ar.auctionInterval)
    (hmax : ar.auctionInterval ≤ maxInt64) :
    (closeExpiredAuctions ar now none coll).1 = coll.map (closeExact ar.auctionInterval now)
    ∧ (∀ r : AuctionEntityMongo, r.Status = AuctionStatus.Active →
        r.Timestamp * 1000000000 = now - ar.auctionInterval →
        (closeExpiredAuctions ar now none [r]).1 = [{ r with Status := AuctionStatus.Completed }])
    ∧ (∀ r : AuctionEntityMongo,
        r.Timestamp * 1000000000 = now - ar.auctionInterval + 1000000000 →
        (closeExpiredAuctions ar now none [r]).1 = [r]) := by
  have key : ∀ r : AuctionEntityMongo,
      (r.Timestamp ≤ (Time.Add now (negDuration ar.auctionInterval)).Unix) ↔
        r.Timestamp * 1000000000 ≤ now - ar.auctionInterval := by
    intro r
    rw [le_unix_iff, negDuration_eq_neg _ hmin hmax]
    unfold Time.Add
    omega
  refine ⟨?_, ?_, ?_⟩
  · rw [closeExpiredAuctions_ok_coll]
    apply List.map_congr_left
    intro r _
    simp only [closeExact, key]
  · intro r hact hts
    rw [closeExpiredAuctions_ok_coll]
    have : r.Timestamp * 1000000000 ≤ now - ar.auctionInterval := by omega
    simp [key, hact, this]
  · intro r hts
    rw [closeExpiredAuctions_ok_coll]
    have : ¬ r.Timestamp * 1000000000 ≤ now - ar.auctionInterval := by omega
    simp [key, this]

/-- Witness for C1: a lifetime of one second, the sweep at second 5. -/
theorem closeExpiredAuctions_closes_exactly_witness :
    (closeExpiredAuctions ⟨Second⟩ 5000000000 none [activeAtZero]).1 =
      [activeAtZero].map (closeExact Second 5000000000) :=
  (closeExpiredAuctions_closes_exactly ⟨Second⟩ 5000000000 [activeAtZero]
    (by decide) (by decide)).1

/-- C1 (counterexample): with the least `int64` lifetime the negation wraps
around; the record Active at second 0 has timestamp at most `now - L` and the
sweep at instant 0 leaves it Active. -/
theorem closeExpiredAuctions_least_lifetime_counterexample :
    getAuctionInterval (envWith "AUCTION_INTERVAL" "-9223372036854775808ns") = minInt64 ∧
    (closeExpiredAuctions ⟨minInt64⟩ 0 none [activeAtZero]).1 = [activeAtZero] ∧
    [activeAtZero].map (closeExact minInt64 0) =
      [{ activeAtZero with Status := AuctionStatus.Completed }] ∧
    (closeExpiredAuctions ⟨minInt64⟩ 0 none [activeAtZero]).1 ≠
      [activeAtZero].map (closeExact minInt64 0) := by
  decide

/-- C2 (as amended): when an auction stored by `CreateAuction` with Timestamp `c`
and status Active is set to Completed by a sweep at `now` under an `int64`
lifetime `L`, at least `L` has elapsed since `c` truncated to whole seconds,
hence more than `L - 1s` since `c`. With `L = 1s`, an auction inserted at `c` is
still Active after the sweep at `c + 0.4s` when the sub-second part of `c` is
below 0.6 s. -/
theorem closed_only_after_lifetime_from_stored_second (coll0 : Collection)
    (e : AuctionEntity) (hact : e.Status = AuctionStatus.Active)
    (hins : (CreateAuction none coll0 e).1 = none) :
    (∀ (L : Duration) (now : Time), IsInt64 L →
      (∃ r ∈ (closeExpiredAuctions ⟨L⟩ now none (CreateAuction none coll0 e).2.1).1,
        r.Id = e.Id ∧ r.Status = AuctionStatus.Completed) →
      L ≤ now - e.Timestamp.Unix * 1000000000 ∧ L - Second < now - e.Timestamp)
    ∧ (e.Timestamp % 1000000000 < 600000000 →
      storedRecord e ∈
        (closeExpiredAuctions ⟨Second⟩ (e.Timestamp + 400000000) none
          (CreateAuction none coll0 e).2.1).1) := by
  obtain ⟨hcoll, hnodup⟩ := CreateAuction_accepted coll0 e hins
  have hsr : (storedRecord e).Status = AuctionStatus.Active := hact
  constructor
  · intro L now hL hclosed
    obtain ⟨r, hr, hid, hst⟩ := hclosed
    rw [hcoll, closeExpiredAuctions_ok_map, List.mem_map] at hr
    obtain ⟨r0, hr0, hfr⟩ := hr
    have hid0 : r0.Id = e.Id := by rw [← hid, ← hfr, sweepRecord_id]
    have hr0eq : r0 = storedRecord e := by
      rcases List.mem_append.mp hr0 with h | h
      · exact absurd hid0 (hnodup r0 h)
      · simpa using h
    subst hr0eq
    have hmatch : (storedRecord e).Timestamp ≤
        (Time.Add now (negDuration L)).Unix := by
      by_contra hno
      have : sweepRecord ⟨L⟩ now (storedRecord e) = storedRecord e := by
        unfold sweepRecord
        simp [hno]
      rw [this] at hfr
      rw [← hfr, hsr] at hst
      exact absurd hst (by decide)
    rw [le_unix_iff] at hmatch
    have hneg := negDuration_le_neg L hL
    have hts : (storedRecord e).Timestamp = Time.Unix e.Timestamp := rfl
    rw [hts] at hmatch
    have hfloor := unix_floor e.Timestamp
    unfold Time.Add at hmatch
    unfold Second Millisecond Microsecond Nanosecond
    dsimp only [Time, Duration] at *
    constructor <;> omega
  · intro hsub
    rw [hcoll, closeExpiredAuctions_ok_map, List.mem_map]
    refine ⟨storedRecord e, by simp, ?_⟩
    have hno : ¬ (storedRecord e).Timestamp ≤
        (Time.Add (e.Timestamp + 400000000) (negDuration Second)).Unix := by
      rw [le_unix_iff]
      have hts : (storedRecord e).Timestamp = Time.Unix e.Timestamp := rfl
      have hS : negDuration Second = -1000000000 := by decide
      rw [hts, hS]
      unfold Time.Add Time.Unix
      dsimp only [Time, Duration] at *
      omega
    unfold sweepRecord
    simp [hno]

/-- Witness for C2: the entity created at instant 0 in an empty collection, with
lifetime 1 s: closed by the sweep at 5 s, still Active after the sweep at 0.4 s. -/
theorem closed_only_after_lifetime_from_stored_second_witness :
    (Second ≤ 5000000000 - createdAtZero.Timestamp.Unix * 1000000000 ∧
      Second - Second < 5000000000 - createdAtZero.Timestamp)
    ∧ storedRecord createdAtZero ∈
      (closeExpiredAuctions ⟨Second⟩ (createdAtZero.Timestamp + 400000000) none
        (CreateAuction none [] createdAtZero).2.1).1 :=
  ⟨(closed_only_after_lifetime_from_stored_second [] createdAtZero (by decide) (by decide)).1
      Second 5000000000 (by decide) ⟨completedRecord createdAtZero, by decide, by decide, by decide⟩,
    (closed_only_after_lifetime_from_stored_second [] createdAtZero (by decide) (by decide)).2
      (by decide)⟩

/-- C2 (counterexample): an auction created at 0.9 s with lifetime 1 s is
Completed by the sweep at 1.0 s, after 0.1 s, and also by the sweep 0.4 s after
its creation. -/
theorem closed_before_lifetime_counterexample :
    lateInSecond.Status = AuctionStatus.Active ∧
    (CreateAuction none [] lateInSecond).1 = none ∧
    (closeExpiredAuctions ⟨Second⟩ 1000000000 none (CreateAuction none [] lateInSecond).2.1).1 =
      [{ storedRecord lateInSecond with Status := AuctionStatus.Completed }] ∧
    ¬ (1000000000 - lateInSecond.Timestamp ≥ Second) ∧
    (closeExpiredAuctions ⟨Second⟩ (lateInSecond.Timestamp + 400000000) none
        (CreateAuction none [] lateInSecond).2.1).1 =
      [{ storedRecord lateInSecond with Status := AuctionStatus.Completed }] := by
  decide

/-- C3 (as amended): for every creation instant `c`, sweep instant `now` and
lifetime `L` that is an `int64` other than the least one, with `now >= c + L`:
an auction stored by `CreateAuction` with Timestamp `c` and status Active is set
to Completed by any successful `closeExpiredAuctions` running at `now`; and it
is Completed after any run of the monitor that made such a sweep. -/
theorem closed_once_lifetime_elapsed (coll0 : Collection) (e : AuctionEntity)
    (L : Duration) (now : Time) (hmin : minInt64 < L) (hmax : L ≤ maxInt64)
    (hact : e.Status = AuctionStatus.Active)
    (hins : (CreateAuction none coll0 e).1 = none) (hnow : e.Timestamp + L ≤ now) :
    completedRecord e ∈ (closeExpiredAuctions ⟨L⟩ now none (CreateAuction none coll0 e).2.1).1
    ∧ (∀ r ∈ (closeExpiredAuctions ⟨L⟩ now none (CreateAuction none coll0 e).2.1).1,
        r.Id = e.Id → r.Status = AuctionStatus.Completed)
    ∧ (∀ (before after : List MonitorEvent) (run : MonitorRun),
        (∀ ev ∈ before, ev.isTick = true) →
        run.coll = (CreateAuction none coll0 e).2.1 →
        completedRecord e ∈
          (monitorLoop ⟨L⟩ (before ++ MonitorEvent.Tick now none :: after) run).coll) := by
  obtain ⟨hcoll, hnodup⟩ := CreateAuction_accepted coll0 e hins
  have hstored : storedRecord e ∈ (CreateAuction none coll0 e).2.1 := by
    rw [hcoll]; simp
  refine ⟨sweep_closes_elapsed L now _ e hmin hmax hact hnow (Or.inl hstored), ?_, ?_⟩
  · intro r hr hid
    rw [hcoll, closeExpiredAuctions_ok_map, List.mem_map] at hr
    obtain ⟨r0, hr0, hfr⟩ := hr
    have hid0 : r0.Id = e.Id := by rw [← hid, ← hfr, sweepRecord_id]
    have hr0eq : r0 = storedRecord e := by
      rcases List.mem_append.mp hr0 with h | h
      · exact absurd hid0 (hnodup r0 h)
      · simpa using h
    subst hr0eq
    have hin : completedRecord e ∈
        (closeExpiredAuctions ⟨L⟩ now none [storedRecord e]).1 :=
      sweep_closes_elapsed L now _ e hmin hmax hact hnow (Or.inl (by simp))
    rw [closeExpiredAuctions_ok_map] at hin
    simp only [List.map_cons, List.map_nil, List.mem_singleton] at hin
    rw [← hfr, ← hin]
    rfl
  · intro before
    have hinv : ∀ (after : List MonitorEvent) (run1 : MonitorRun),
        (∀ ev ∈ before, ev.isTick = true) →
        (storedRecord e ∈ run1.coll ∨ completedRecord e ∈ run1.coll) →
        completedRecord e ∈
          (monitorLoop ⟨L⟩ (before ++ MonitorEvent.Tick now none :: after) run1).coll := by
      induction before with
      | nil =>
        intro after run1 _ hq
        simp only [List.nil_append, monitorLoop]
        apply monitorLoop_keeps_completed _ _ rfl
        exact sweep_closes_elapsed L now _ e hmin hmax hact hnow hq
      | cons ev1 rest1 ih1 =>
        intro after run1 ht hq
        cases ev1 with
        | Done =>
          have := ht MonitorEvent.Done (by simp)
          simp [MonitorEvent.isTick] at this
        | Tick now1 fault1 =>
          simp only [List.cons_append, monitorLoop]
          apply ih1
          · intro ev hev
            exact ht ev (List.mem_cons_of_mem _ hev)
          · exact sweep_keeps_stored ⟨L⟩ now1 fault1 run1.coll e hq
    intro after run hticks hrun
    exact hinv after run hticks (Or.inl (hrun ▸ hstored))

/-- Witness for C3: lifetime 1 s, the auction created at instant 0, the monitor
sweeping every 200 ms up to 1.2 s. -/
theorem closed_once_lifetime_elapsed_witness :
    completedRecord createdAtZero ∈
      (monitorLoop ⟨Second⟩
        ([MonitorEvent.Tick 200000000 none, MonitorEvent.Tick 400000000 none,
          MonitorEvent.Tick 600000000 none, MonitorEvent.Tick 800000000 none] ++
          MonitorEvent.Tick 1000000000 none :: [MonitorEvent.Tick 1200000000 none])
        ⟨MonitorState.Running, (CreateAuction none [] createdAtZero).2.1, [], 0⟩).coll :=
  (closed_once_lifetime_elapsed [] createdAtZero Second 1000000000 (by decide) (by decide)
    (by decide) (by decide) (by decide)).2.2 _ _ _ (by decide) rfl

/-- C3 (counterexample): with the least `int64` lifetime every instant is at least
`c + L`, yet the successful sweep at instant 0 leaves the auction created at
instant 0 Active. -/
theorem not_closed_least_lifetime_counterexample :
    (NewAuctionRepository (envWith "AUCTION_INTERVAL" "-9223372036854775808ns")).1 =
      ⟨minInt64⟩ ∧
    createdAtZero.Status = AuctionStatus.Active ∧
    (CreateAuction none [] createdAtZero).1 = none ∧
    createdAtZero.Timestamp + minInt64 ≤ 0 ∧
    (closeExpiredAuctions ⟨minInt64⟩ 0 none (CreateAuction none [] createdAtZero).2.1).1 =
      [storedRecord createdAtZero] ∧
    (storedRecord createdAtZero).Status = AuctionStatus.Active := by
  decide

/-- C4: a second successful sweep at the same instant matches and modifies no
record, leaves the collection as the first sweep left it, and logs nothing. -/
theorem closeExpiredAuctions_idempotent (ar : AuctionRepository) (now : Time)
    (coll : Collection) :
    UpdateMany none (closeExpiredAuctions ar now none coll).1
        { status := AuctionStatus.Active,
          timestampLte := (Time.Add now (negDuration ar.auctionInterval)).Unix }
        { setStatus := AuctionStatus.Completed } =
      .ok ((closeExpiredAuctions ar now none coll).1, { MatchedCount := 0, ModifiedCount := 0 })
    ∧ closeExpiredAuctions ar now none (closeExpiredAuctions ar now none coll).1 =
      ((closeExpiredAuctions ar now none coll).1, []) := by
  have hno : ∀ r ∈ coll.map (sweepRecord ar now),
      Filter.matchesDoc
        ⟨AuctionStatus.Active, (Time.Add now (negDuration ar.auctionInterval)).Unix⟩ r = false := by
    intro r hr
    obtain ⟨r0, _, rfl⟩ := List.mem_map.mp hr
    exact sweepRecord_not_matched ar now r0
  have hmap : (coll.map (sweepRecord ar now)).map (fun r =>
      if Filter.matchesDoc
          ⟨AuctionStatus.Active, (Time.Add now (negDuration ar.auctionInterval)).Unix⟩ r = true
        then Update.applyDoc ⟨AuctionStatus.Completed⟩ r else r) =
      coll.map (sweepRecord ar now) := by
    conv_rhs => rw [← List.map_id (coll.map (sweepRecord ar now))]
    apply List.map_congr_left
    intro r hr
    simp [hno r hr]
  have hmatched : (coll.map (sweepRecord ar now)).countP (Filter.matchesDoc
      ⟨AuctionStatus.Active, (Time.Add now (negDuration ar.auctionInterval)).Unix⟩) = 0 := by
    rw [List.countP_eq_zero]
    intro r hr
    simp [hno r hr]
  have hmodified : (coll.map (sweepRecord ar now)).countP (fun r => Filter.matchesDoc
      ⟨AuctionStatus.Active, (Time.Add now (negDuration ar.auctionInterval)).Unix⟩ r &&
        decide (Update.applyDoc ⟨AuctionStatus.Completed⟩ r ≠ r)) = 0 := by
    rw [List.countP_eq_zero]
    intro r hr
    simp [hno r hr]
  have hupd : UpdateMany none (coll.map (sweepRecord ar now))
        { status := AuctionStatus.Active,
          timestampLte := (Time.Add now (negDuration ar.auctionInterval)).Unix }
        { setStatus := AuctionStatus.Completed } =
      .ok (coll.map (sweepRecord ar now), { MatchedCount := 0, ModifiedCount := 0 }) := by
    simp only [UpdateMany, hmap, hmatched, hmodified]
  rw [closeExpiredAuctions_ok_map]
  refine ⟨hupd, ?_⟩
  simp only [closeExpiredAuctions, hupd]
  simp

/-- C5: whatever the outcome of the bulk update, a sweep leaves every record that
is already Completed identical, sets no record to Active, and changes a status
only from Active to Completed; no other field of any record changes. -/
theorem closeExpiredAuctions_status_monotonic (ar : AuctionRepository) (now : Time)
    (fault : Option String) (coll : Collection) :
    List.Forall₂
      (fun r r1 : AuctionEntityMongo =>
        (r.Status = AuctionStatus.Completed → r1 = r) ∧
        (r1.Status = AuctionStatus.Active → r.Status = AuctionStatus.Active) ∧
        (r1.Status ≠ r.Status →
          r.Status = AuctionStatus.Active ∧ r1.Status = AuctionStatus.Completed) ∧
        { r1 with Status := r.Status } = r)
      coll (closeExpiredAuctions ar now fault coll).1 := by
  have hrec : ∀ (f : AuctionEntityMongo → AuctionEntityMongo),
      (∀ r, f r = r ∨ (r.Status = AuctionStatus.Active ∧
        f r = { r with Status := AuctionStatus.Completed })) →
      List.Forall₂
        (fun r r1 : AuctionEntityMongo =>
          (r.Status = AuctionStatus.Completed → r1 = r) ∧
          (r1.Status = AuctionStatus.Active → r.Status = AuctionStatus.Active) ∧
          (r1.Status ≠ r.Status →
            r.Status = AuctionStatus.Active ∧ r1.Status = AuctionStatus.Completed) ∧
          { r1 with Status := r.Status } = r)
        coll (coll.map f) := by
    intro f hf
    rw [List.forall₂_map_right_iff]
    apply List.forall₂_same.mpr
    intro r _
    rcases hf r with h | ⟨hact, h⟩
    · rw [h]
      exact ⟨fun _ => rfl, fun h1 => h1, fun h1 => absurd rfl h1, rfl⟩
    · rw [h]
      refine ⟨fun hc => ?_, fun h1 => ?_, fun _ => ⟨hact, rfl⟩, rfl⟩
      · rw [hact] at hc
        exact absurd hc (by decide)
      · exact absurd h1 (fun h2 => AuctionStatus.noConfusion h2)
  rcases closeExpiredAuctions_coll_cases ar now fault coll with h | h
  · rw [h]
    have := hrec id (fun r => Or.inl rfl)
    rwa [List.map_id] at this
  · rw [h]
    exact hrec (sweepRecord ar now) (sweepRecord_cases ar now)

/-- C6: `getAuctionInterval` returns the parsed duration when `AUCTION_INTERVAL`
holds a valid duration string (30 s for "30s") and 5 minutes when it is unset
or malformed; `getAuctionCloseCheckInterval` does the same for
`AUCTION_CLOSE_CHECK_INTERVAL` with the default of 10 seconds. -/
theorem duration_settings_resolve (env : Env) :
    (∀ d, ParseDuration (Getenv env "AUCTION_INTERVAL") = .ok d → getAuctionInterval env = d)
    ∧ (∀ err, ParseDuration (Getenv env "AUCTION_INTERVAL") = .error err →
        getAuctionInterval env = 5 * Minute)
    ∧ (env "AUCTION_INTERVAL" = none → getAuctionInterval env = 5 * Minute)
    ∧ (∀ d, ParseDuration (Getenv env "AUCTION_CLOSE_CHECK_INTERVAL") = .ok d →
        getAuctionCloseCheckInterval env = d)
    ∧ (∀ err, ParseDuration (Getenv env "AUCTION_CLOSE_CHECK_INTERVAL") = .error err →
        getAuctionCloseCheckInterval env = 10 * Second)
    ∧ (env "AUCTION_CLOSE_CHECK_INTERVAL" = none →
        getAuctionCloseCheckInterval env = 10 * Second)
    ∧ getAuctionInterval (envWith "AUCTION_INTERVAL" "30s") = 30 * Second
    ∧ getAuctionInterval (envWith "AUCTION_INTERVAL" "invalid") = 5 * Minute
    ∧ getAuctionCloseCheckInterval (envWith "AUCTION_CLOSE_CHECK_INTERVAL" "5s") = 5 * Second
    ∧ (5 * Minute = (300000000000 : Int) ∧ 10 * Second = (10000000000 : Int)) := by
  have hempty : ParseDuration "" = .error .invalidDuration := by decide
  refine ⟨?_, ?_, ?_, ?_, ?_, ?_, by decide, by decide, by decide, by decide⟩
  · intro d h
    simp only [getAuctionInterval, h]
  · intro err h
    simp only [getAuctionInterval, h]
    decide
  · intro h
    simp only [getAuctionInterval, Getenv, h, Option.getD_none, hempty]
    decide
  · intro d h
    simp only [getAuctionCloseCheckInterval, h]
  · intro err h
    simp only [getAuctionCloseCheckInterval, h]
    decide
  · intro h
    simp only [getAuctionCloseCheckInterval, Getenv, h, Option.getD_none, hempty]
    decide

/-- C7: `CreateAuction` returns an error exactly when the store rejects the
insert, as it does for a duplicate identifier; the error then carries the
message "Error trying to insert auction" and the collection is unchanged; an
accepted insert returns no error and stores the record; identifiers that were
unique stay unique. -/
theorem CreateAuction_error_iff_rejected (fault : Option String) (coll : Collection)
    (e : AuctionEntity) :
    ((CreateAuction fault coll e).1 ≠ none ↔
      ∃ err, InsertOne fault coll (storedRecord e) = .error err)
    ∧ ((∃ err, InsertOne fault coll (storedRecord e) = .error err) →
        (CreateAuction fault coll e).1 = some ⟨"Error trying to insert auction"⟩ ∧
        (CreateAuction fault coll e).2.1 = coll)
    ∧ (∀ coll1, InsertOne fault coll (storedRecord e) = .ok coll1 →
        (CreateAuction fault coll e).1 = none ∧ (CreateAuction fault coll e).2.1 = coll1 ∧
        coll1 = coll ++ [storedRecord e])
    ∧ ((∃ r ∈ coll, r.Id = e.Id) → (CreateAuction fault coll e).1 ≠ none)
    ∧ ((coll.map (fun r => r.Id)).Nodup →
        ((CreateAuction fault coll e).2.1.map (fun r => r.Id)).Nodup) := by
  have hdef : CreateAuction fault coll e =
      match InsertOne fault coll (storedRecord e) with
      | .error err =>
        (some (NewInternalServerError "Error trying to insert auction"), coll,
          [LogCall.Error "Error trying to insert auction" err])
      | .ok coll1 => (none, coll1, []) := rfl
  rw [hdef]
  cases hio : InsertOne fault coll (storedRecord e) with
  | error err =>
    refine ⟨?_, ?_, ?_, ?_, ?_⟩
    · simp
    · intro _
      exact ⟨rfl, rfl⟩
    · intro coll1 h
      exact absurd h (by simp)
    · intro _
      simp
    · intro h
      exact h
  | ok coll1 =>
    have hacc : fault = none ∧ (coll.any (fun r => decide (r.Id = (storedRecord e).Id))) = false ∧
        coll1 = coll ++ [storedRecord e] := by
      unfold InsertOne at hio
      cases fault with
      | some f => simp at hio
      | none =>
        simp only at hio
        split_ifs at hio with hdup
        · simp only [Except.ok.injEq] at hio
          exact ⟨rfl, by simpa using hdup, hio.symm⟩
    obtain ⟨_, hnodup, hcoll1⟩ := hacc
    have hfresh : ∀ r ∈ coll, r.Id ≠ e.Id := by
      intro r hr hid
      have : (coll.any (fun r => decide (r.Id = (storedRecord e).Id))) = true := by
        rw [List.any_eq_true]
        exact ⟨r, hr, by simpa using hid⟩
      rw [hnodup] at this
      exact absurd this (by decide)
    refine ⟨?_, ?_, ?_, ?_, ?_⟩
    · simp
    · rintro ⟨err, h⟩
      exact absurd h (by simp)
    · intro coll2 h
      simp only [Except.ok.injEq] at h
      subst h
      exact ⟨rfl, rfl, hcoll1⟩
    · rintro ⟨r, hr, hid⟩
      exact absurd hid (hfresh r hr)
    · intro hnd
      simp only [hcoll1, List.map_append, List.map_cons, List.map_nil]
      rw [List.nodup_append]
      refine ⟨hnd, List.nodup_singleton _, ?_⟩
      intro a ha hb
      simp only [List.mem_singleton] at hb
      obtain ⟨r, hr, hra⟩ := List.mem_map.mp ha
      apply hfresh r hr
      rw [hra, hb]
      rfl

/-- C8: when the bulk update fails, `closeExpiredAuctions` returns with the
collection unchanged and exactly one call to the logger, the error entry; no
"Closed N expired auction(s)" entry is logged. -/
theorem closeExpiredAuctions_failure_is_noop (ar : AuctionRepository) (now : Time)
    (err : String) (coll : Collection) :
    closeExpiredAuctions ar now (some err) coll =
      (coll, [LogCall.Error "Error trying to close expired auctions" err])
    ∧ (closeExpiredAuctions ar now (some err) coll).1 = coll
    ∧ ((closeExpiredAuctions ar now (some err) coll).2.filter
        (fun c => match c with
          | LogCall.Error _ _ => true
          | LogCall.Info _ => false)).length = 1
    ∧ (∀ message, LogCall.Info message ∉ (closeExpiredAuctions ar now (some err) coll).2) := by
  have h : closeExpiredAuctions ar now (some err) coll =
      (coll, [LogCall.Error "Error trying to close expired auctions" err]) := by
    simp [closeExpiredAuctions, UpdateMany]
  rw [h]
  refine ⟨rfl, rfl, rfl, ?_⟩
  intro message hmem
  simp at hmem

/-- C9 (as amended): started with an interval the ticker accepts, over every
sequence of `select` rounds the monitor makes exactly one sweep for each tick
its `select` takes while Running: its collection and its logger calls are those
of these sweeps run one after the other, failing sweeps included, followed by
the stop entry once the cancellation is taken. It leaves Running exactly when
its `select` takes the cancellation, and the rounds after that change nothing:
no further sweep, no return to Running. When no `select` finds both channels
ready, no sweep follows the issue of the cancellation. -/
theorem monitor_sweeps_until_cancellation_taken (ar : AuctionRepository)
    (checkInterval : Duration) (rounds : List SelectRound) (coll : Collection)
    (hpos : 0 < checkInterval) :
    ∃ run, monitorAuctionExpiration ar checkInterval (rounds.map SelectRound.outcome) coll =
        .ok run
      ∧ run.sweeps = (ticksBeforeDone (rounds.map SelectRound.outcome)).length
      ∧ run.coll = (sweepAll ar (ticksBeforeDone (rounds.map SelectRound.outcome)) coll).1
      ∧ run.log = (sweepAll ar (ticksBeforeDone (rounds.map SelectRound.outcome)) coll).2 ++
          (if MonitorEvent.Done ∈ rounds.map SelectRound.outcome then [stopEntry] else [])
      ∧ (run.state = MonitorState.Stopped ↔
          ∃ r ∈ rounds, r.outcome = MonitorEvent.Done)
      ∧ (run.state = MonitorState.Running ↔
          ∀ r ∈ rounds, r.outcome ≠ MonitorEvent.Done)
      ∧ (∀ before r after, rounds = before ++ r :: after → r.outcome = MonitorEvent.Done →
          monitorAuctionExpiration ar checkInterval
            ((before ++ [r]).map SelectRound.outcome) coll = .ok run)
      ∧ ((∀ r ∈ rounds, r.isRace = false) →
          run.sweeps = (rounds.takeWhile (fun r => !r.cancelled)).length) := by
  have hticker : NewTicker checkInterval = .ok () := by
    unfold NewTicker
    rw [if_neg (not_le.mpr hpos)]
  have hrun : ∀ evs, monitorAuctionExpiration ar checkInterval evs coll =
      .ok (monitorLoop ar evs ⟨MonitorState.Running, coll, [], 0⟩) := by
    intro evs
    simp only [monitorAuctionExpiration, hticker]
  have hmem : MonitorEvent.Done ∈ rounds.map SelectRound.outcome ↔
      ∃ r ∈ rounds, r.outcome = MonitorEvent.Done := by
    simp [List.mem_map]
  obtain ⟨hc, hl, hs⟩ := monitorLoop_refines ar (rounds.map SelectRound.outcome)
    ⟨MonitorState.Running, coll, [], 0⟩
  have hsweeps : (monitorLoop ar (rounds.map SelectRound.outcome)
      ⟨MonitorState.Running, coll, [], 0⟩).sweeps =
      (ticksBeforeDone (rounds.map SelectRound.outcome)).length := by
    rw [hs]
    simp
  refine ⟨monitorLoop ar (rounds.map SelectRound.outcome) ⟨MonitorState.Running, coll, [], 0⟩,
    hrun _, hsweeps, hc, ?_, ?_, ?_, ?_, ?_⟩
  · rw [hl]
    simp
  · rw [monitorLoop_state, ← hmem]
    by_cases h : MonitorEvent.Done ∈ rounds.map SelectRound.outcome <;> simp [h]
  · rw [monitorLoop_state]
    have hall : (∀ r ∈ rounds, r.outcome ≠ MonitorEvent.Done) ↔
        MonitorEvent.Done ∉ rounds.map SelectRound.outcome := by
      rw [hmem]
      push_neg
      rfl
    rw [hall]
    by_cases h : MonitorEvent.Done ∈ rounds.map SelectRound.outcome <;> simp [h]
  · intro before r after hev hr
    rw [hrun, hev]
    simp only [List.map_append, List.map_cons, List.map_nil, hr]
    rw [monitorLoop_done_cut ar (before.map SelectRound.outcome)
      (after.map SelectRound.outcome)]
  · intro hno
    rw [hsweeps, ticksBeforeDone_no_race rounds hno]

/-- Witness for C9: a record Active at second 0 under a lifetime of 1 s and an
interval of 200 ms; three sweeps are made, the first closes the record, the
other two fail, and the monitor stops when its `select` takes the
cancellation. -/
theorem monitor_sweeps_until_cancellation_taken_witness :
    ∃ run, monitorAuctionExpiration ⟨Second⟩ (200 * Millisecond)
        (racingRounds.map SelectRound.outcome) [activeAtZero] = .ok run
      ∧ run.sweeps = 3
      ∧ run.coll = [{ activeAtZero with Status := AuctionStatus.Completed }]
      ∧ run.log =
        [LogCall.Info "Closed 1 expired auction(s)",
          LogCall.Error "Error trying to close expired auctions" "timeout",
          LogCall.Error "Error trying to close expired auctions" "context canceled",
          stopEntry]
      ∧ run.state = MonitorState.Stopped := by
  obtain ⟨run, h1, h2, h3, h4, h5, _⟩ := monitor_sweeps_until_cancellation_taken ⟨Second⟩
    (200 * Millisecond) racingRounds [activeAtZero] (by decide)
  refine ⟨run, h1, ?_, ?_, ?_, h5.mpr (by decide)⟩
  · rw [h2]; decide
  · rw [h3]; decide
  · rw [h4]; decide

/-- C9 (counterexample): the cancellation is issued before the third round, where
a tick is pending too and the `select` takes the tick: the monitor, still
Running, makes a third sweep, one more than the two ticks received before the
cancellation, and logs its failure before it stops. -/
theorem sweep_after_cancellation_issued_counterexample :
    cancelStays racingRounds = true ∧
    (racingRounds.takeWhile (fun r => !r.cancelled)).length = 2 ∧
    (∃ run, monitorAuctionExpiration ⟨Second⟩ (200 * Millisecond)
        (racingRounds.map SelectRound.outcome) [activeAtZero] = .ok run
      ∧ run.sweeps = 3
      ∧ run.log =
        [LogCall.Info "Closed 1 expired auction(s)",
          LogCall.Error "Error trying to close expired auctions" "timeout",
          LogCall.Error "Error trying to close expired auctions" "context canceled",
          stopEntry]) := by
  refine ⟨by decide, by decide, ?_⟩
  exact ⟨monitorLoop ⟨Second⟩ (racingRounds.map SelectRound.outcome)
    ⟨MonitorState.Running, [activeAtZero], [], 0⟩, by decide, by decide, by decide⟩

/-- C10 (the code at the failing input): with `AUCTION_CLOSE_CHECK_INTERVAL` set
to "0s", or to "-5s", the interval `NewAuctionRepository` hands to the monitor
is not positive and `monitorAuctionExpiration` panics in `time.NewTicker`;
unset or malformed, the interval is the positive default. -/
theorem nonpositive_check_interval_panics :
    (NewAuctionRepository (envWith "AUCTION_CLOSE_CHECK_INTERVAL" "0s")).2 = 0
    ∧ monitorAuctionExpiration
        (NewAuctionRepository (envWith "AUCTION_CLOSE_CHECK_INTERVAL" "0s")).1
        (NewAuctionRepository (envWith "AUCTION_CLOSE_CHECK_INTERVAL" "0s")).2
        [MonitorEvent.Tick 200000000 none] [] =
      .error "non-positive interval for NewTicker"
    ∧ (NewAuctionRepository (envWith "AUCTION_CLOSE_CHECK_INTERVAL" "-5s")).2 = -5 * Second
    ∧ monitorAuctionExpiration
        (NewAuctionRepository (envWith "AUCTION_CLOSE_CHECK_INTERVAL" "-5s")).1
        (NewAuctionRepository (envWith "AUCTION_CLOSE_CHECK_INTERVAL" "-5s")).2
        [MonitorEvent.Tick 200000000 none] [] =
      .error "non-positive interval for NewTicker"
    ∧ (NewAuctionRepository emptyEnv).2 = 10 * Second
    ∧ (NewAuctionRepository (envWith "AUCTION_CLOSE_CHECK_INTERVAL" "soon")).2 = 10 * Second := by
  decide

end Auction
